import Mathlib

/-!
Verification of the Super-Store data-warehouse ETL pipeline (src/etl.py).

The pipeline is embedded shallowly: a dataframe is a list of typed rows,
float measures are exact rationals, the MySQL tables written by the
dimension loaders are lists of rows paired with auto-increment ids
assigned sequentially from 1 (the pipeline assumes an empty target
schema), and the dimension-key dictionaries read back by the fact
loaders are functions into Option Nat.  Fallible steps (a float
division by zero producing a non-finite value, a raising pandas
operation) are embedded with Option and Except.
-/

namespace SuperStore

/-- Calendar date with year, month and day fields, as produced by
pandas to_datetime on the Order Date and Ship Date columns. -/
structure Date where
  year : Nat
  month : Nat
  day : Nat
deriving DecidableEq

/-- One line item of the Superstore CSV (etl.py load_data).  The two
trailing Option fields embed the year and month dataframe columns that
do not exist on the raw data and are assigned by the OrderM and
ProductPerformance loaders (etl.py lines 707-708 and 842-843): none
means the column is absent for this dataframe. -/
structure Row where
  orderId : String
  productId : String
  customerId : String
  customerName : String
  segment : String
  orderDate : Date
  shipDate : Date
  shipMode : String
  country : String
  region : String
  state : String
  city : String
  postalCode : String
  category : String
  subCategory : String
  productName : String
  quantity : Int
  sales : ℚ
  discount : ℚ
  profit : ℚ
  yearCol : Option Nat
  monthCol : Option Nat
deriving DecidableEq

/-- Placeholder row used only to totalize head extraction on lists that
are provably nonempty at every use site. -/
def emptyRow : Row :=
  ⟨"", "", "", "", "", ⟨0, 0, 0⟩, ⟨0, 0, 0⟩, "", "", "", "", "", "", "",
   "", "", 0, 0, 0, 0, none, none⟩

instance : Inhabited Row := ⟨emptyRow⟩

/-- Auxiliary recursion of dedupFirst: seen holds the values already
emitted, which are dropped from the remainder. -/
def dedupFirstAux {κ : Type} [DecidableEq κ] : List κ → List κ → List κ
  | _, [] => []
  | seen, a :: t =>
    if a ∈ seen then dedupFirstAux seen t
    else a :: dedupFirstAux (a :: seen) t

/-- Distinct values of a list in first-occurrence order, as produced by
pandas drop_duplicates, Series.unique and dict insertion order (each
keeps the first of every group of equal values). -/
def dedupFirst {κ : Type} [DecidableEq κ] (l : List κ) : List κ :=
  dedupFirstAux [] l

/-- Lexicographic order on strings by character code point, the order
used by Python string comparison and pandas string sorts. -/
def strLt (a b : String) : Prop := a.data < b.data

/-- Non-strict form of the lexicographic string order. -/
def strLe (a b : String) : Prop := a.data ≤ b.data

instance : DecidableRel strLt := fun a b => by unfold strLt; infer_instance

instance : DecidableRel strLe := fun a b => by unfold strLe; infer_instance

/-- Position of the first occurrence of a value in a list, the content
of a Python dict built by enumeration over a duplicate-free list. -/
def idxIn {κ : Type} [DecidableEq κ] : List κ → κ → Option Nat
  | [], _ => none
  | a :: t, v => if a = v then some 0 else (idxIn t v).map (· + 1)

/-- Group key of the deduplication step: the (Order ID, Product ID) pair
of a row (etl.py line 74). -/
def rowKey (r : Row) : String × String := (r.orderId, r.productId)

/-- Size of the group of a key, as computed by
groupby(group_cols).size() (etl.py lines 77-79). -/
def countKey (df : List Row) (k : String × String) : Nat :=
  (df.filter (fun r => rowKey r = k)).length

/-- Lexicographic order on (Order ID, Product ID) pairs: pandas groupby
sorts the group keys ascending. -/
def pairLe (a b : String × String) : Prop :=
  strLt a.1 b.1 ∨ (a.1 = b.1 ∧ strLe a.2 b.2)

instance : DecidableRel pairLe := fun a b => by unfold pairLe; infer_instance

/-- The duplicates frame of etl.py lines 77-80: the distinct
(Order ID, Product ID) keys, in the sorted order produced by groupby (a
stable sort of the distinct keys), restricted to keys whose group has
more than one row. -/
def duplicateKeys (df : List Row) : List (String × String) :=
  (List.insertionSort pairLe (dedupFirst (df.map rowKey))).filter
    (fun k => 1 < countKey df k)

/-- Quantity-weighted discount of etl.py lines 108-112 over exact
rationals: the sum of discount_i * quantity_i / total_quantity
(division is totalized with x / 0 = 0; the companion definition
weightedDiscountF embeds the float semantics of the zero divisor
case, and the two agree whenever the total quantity is nonzero). -/
def weightedDiscountQ (rows : List Row) : ℚ :=
  let totalQuantity : Int := (rows.map (·.quantity)).sum
  (rows.map (fun r => r.discount * (r.quantity : ℚ) / (totalQuantity : ℚ))).sum

/-- Float division embedded over ℚ as a partial operation: a zero
divisor yields no finite value (IEEE inf or NaN), modelled as none. -/
def fdiv (x y : ℚ) : Option ℚ := if y = 0 then none else some (x / y)

/-- Sum of embedded float values, with a non-finite summand poisoning
the whole sum.  The theorems use this sum only when every summand is
finite, where it agrees with the pandas Series sum of the source (whose
default additionally skips NaN entries); for a zero total quantity
every summand of the discount expression is a division by zero and no
theorem relies on the summed value. -/
def fsum (l : List (Option ℚ)) : Option ℚ :=
  l.foldr (fun x acc => match x, acc with
    | some a, some b => some (a + b)
    | _, _ => none) (some 0)

/-- The weighted-discount expression of etl.py lines 110-112 with float
division embedded as fdiv: per element discount_i * quantity_i is
divided by the total quantity and the results are summed.  The input is
the list of (Discount, Quantity) pairs of the duplicate group. -/
def weightedDiscountF (dq : List (ℚ × Int)) : Option ℚ :=
  let totalQuantity : Int := (dq.map (·.2)).sum
  fsum (dq.map (fun p => fdiv (p.1 * (p.2 : ℚ)) (totalQuantity : ℚ)))

/-- Merge of one duplicate group, etl.py lines 100-123: the first row of
the group is the template; Quantity, Sales and Profit are replaced by
the group sums and Discount by the quantity-weighted discount. -/
def mergeGroup (rows : List Row) : Row :=
  { rows.headI with
    quantity := (rows.map (·.quantity)).sum
    sales := (rows.map (·.sales)).sum
    discount := weightedDiscountQ rows
    profit := (rows.map (·.profit)).sum }

/-- The merging loop of etl.py lines 91-126: for each duplicate key the
rows of that key are filtered from the working dataframe, merged into
one row that is recorded, and removed from the working dataframe.  The
result is the final working dataframe (the pass-through rows) and the
recorded merged rows, which lines 128-130 concatenate in that order. -/
def preprocessLoop : List (String × String) → List Row → List Row × List Row
  | [], processed => (processed, [])
  | k :: ks, processed =>
    let grp := processed.filter (fun r => rowKey r = k)
    let merged := mergeGroup grp
    let rest := preprocessLoop ks (processed.filter (fun r => ¬(rowKey r = k)))
    (rest.1, merged :: rest.2)

/-- Full deduplication step, etl.py lines 57-134: run the merging loop
over the duplicate keys and append the merged rows after the remaining
pass-through rows (if there are no duplicate keys the loop is skipped
and the dataframe is returned unchanged, the code path of line 86). -/
def preprocess_merge_duplicate_products (df : List Row) : List Row :=
  (preprocessLoop (duplicateKeys df) df).1 ++ (preprocessLoop (duplicateKeys df) df).2

/-- Mapping of a natural-key value to a surrogate id, etl.py lines
140-153: the distinct observed values are taken in first-occurrence
order (drop_duplicates keeps the first of equal values) and enumerated
from 1; the dict built that way sends each distinct value to its
position in the duplicate-free list plus 1, and holds no other key. -/
def levelMapping {κ : Type} [DecidableEq κ] (values : List κ) (v : κ) : Option Nat :=
  (idxIn (dedupFirst values) v).map (· + 1)

/-- create_level_mappings, etl.py lines 137-159: the sub-category,
country and (City, State) surrogate-key mappings built before any
database write. -/
def create_level_mappings (df : List Row) :
    (String → Option Nat) × (String → Option Nat)
      × (String × String → Option Nat) :=
  (levelMapping (df.map (·.subCategory)),
   levelMapping (df.map (·.country)),
   levelMapping (df.map (fun r => (r.city, r.state))))

/-- Chronological order on dates: lexicographic on year, month, day. -/
def dateLe (a b : Date) : Prop :=
  a.year < b.year ∨ (a.year = b.year ∧
    (a.month < b.month ∨ (a.month = b.month ∧ a.day ≤ b.day)))

instance : DecidableRel dateLe := fun a b => by unfold dateLe; infer_instance

/-- The sorted distinct calendar dates of etl.py lines 164-167: the
union of the Order Date and Ship Date values, sorted ascending. -/
def allDates (df : List Row) : List Date :=
  List.insertionSort dateLe
    (dedupFirst (df.map (·.orderDate) ++ df.map (·.shipDate)))

/-- The sorted distinct years of etl.py line 170. -/
def calendarYears (df : List Row) : List Nat :=
  List.insertionSort (· ≤ ·) (dedupFirst ((allDates df).map (·.year)))

/-- year_mapping of etl.py line 171: each year maps to its 1-based
position in the sorted distinct years (enumerate(years, 1)). -/
def year_mapping (df : List Row) (y : Nat) : Option Nat :=
  (idxIn (calendarYears df) y).map (· + 1)

/-- English month name produced by strftime at etl.py line 183. -/
def monthName : Nat → String
  | 1 => "January"
  | 2 => "February"
  | 3 => "March"
  | 4 => "April"
  | 5 => "May"
  | 6 => "June"
  | 7 => "July"
  | 8 => "August"
  | 9 => "September"
  | 10 => "October"
  | 11 => "November"
  | 12 => "December"
  | _ => ""

/-- One entry of calendar_data, etl.py lines 174-187. -/
structure CalRowPre where
  full_date : Date
  year_id : Nat
  year_number : Nat
  month_number : Nat
  month_name : String
  day_id : Nat
  day_number : Nat
deriving DecidableEq

/-- One calendar_data entry (etl.py lines 176-187) for one date.  The
year_mapping lookup of line 180 cannot fail because every year of a
date of all_dates is a key of the mapping, so the embedded lookup is
unwrapped with default 0; the theorems show the id is always the
1-based rank of the year. -/
def calRowOf (df : List Row) (d : Date) : CalRowPre :=
  ⟨d, (year_mapping df d.year).getD 0, d.year, d.month,
   monthName d.month, d.day, d.day⟩

/-- calendar_df of etl.py lines 174-189: one entry per distinct date. -/
def calendar_df (df : List Row) : List CalRowPre :=
  (allDates df).map (calRowOf df)

/-- One row of month_data, etl.py lines 192-194. -/
structure MonthRowPre where
  year_id : Nat
  year_number : Nat
  month_number : Nat
  month_name : String
deriving DecidableEq

/-- Projection of a calendar_data entry onto the four CalendarMonth
columns of etl.py line 193. -/
def monthRowOfCal (c : CalRowPre) : MonthRowPre :=
  ⟨c.year_id, c.year_number, c.month_number, c.month_name⟩

/-- month_data of etl.py lines 192-194: the distinct
(year_id, year_number, month_number, month_name) tuples of calendar_df,
in first-occurrence order. -/
def month_data (df : List Row) : List MonthRowPre :=
  dedupFirst ((calendar_df df).map monthRowOfCal)

/-- Contents of the CalendarMonth table after the insert loop of etl.py
lines 196-213: the pipeline assumes an empty target schema, so the
MySQL auto-increment primary keys are 1, 2, ... in insert order. -/
def calendarMonthTable (df : List Row) : List (Nat × MonthRowPre) :=
  (month_data df).enum.map (fun p => (p.1 + 1, p.2))

/-- month_mapping of etl.py lines 216-222, read back from the database:
the dict from (year_id, calendar_month_number) to calendar_month_id.
The keys are pairwise distinct (proved below), so the first matching
table row gives the dict entry. -/
def month_mapping (df : List Row) (k : Nat × Nat) : Option Nat :=
  ((calendarMonthTable df).find?
    (fun p => p.2.year_id = k.1 ∧ p.2.month_number = k.2)).map (·.1)

/-- One row of the Calendar table insert of etl.py lines 229-245. -/
structure CalendarRowIns where
  full_date : Date
  year_id : Nat
  year_number : Nat
  month_id : Nat
  month_number : Nat
  month_name : String
  day_id : Nat
  day_number : Nat
deriving DecidableEq

/-- The Calendar insert loop of etl.py lines 225-247: each date row
looks its calendar_month_id up in month_mapping by
(year_id, month_number); a missing key would raise (KeyError on
line 227), embedded as none for the whole loop. -/
def calendarTable (df : List Row) : Option (List CalendarRowIns) :=
  (calendar_df df).mapM (fun c =>
    (month_mapping df (c.year_id, c.month_number)).map (fun mid =>
      ⟨c.full_date, c.year_id, c.year_number, mid, c.month_number,
       c.month_name, c.day_id, c.day_number⟩))

/-- load_calendar_dimension, etl.py lines 163-251: inserts the
CalendarMonth rows, re-reads their generated ids, inserts the Calendar
rows and returns the year mapping (line 251). -/
def load_calendar_dimension (df : List Row) :
    Option (List (Nat × MonthRowPre) × List CalendarRowIns × (Nat → Option Nat)) :=
  (calendarTable df).map (fun cal => (calendarMonthTable df, cal, year_mapping df))

/-- The dimension-key dictionaries a fact loader reads from the
database in its step 1 (etl.py lines 450-471, 561-578, 690-704 and
820-839): each maps a natural key to the generated id, none when the
natural key is absent from the dimension table. -/
structure Mappings where
  customer : String → Option Nat
  product : String → Option Nat
  calendar : Date → Option Nat
  location : String × String → Option Nat
  shipping : String → Option Nat
  state : String → Option Nat
  category : String → Option Nat
  calendarMonth : Nat × Nat → Option Nat

/-- lost_value of etl.py lines 505-509: below 100 percent discount the
lost value is full price minus sales, otherwise 0. -/
def lost_value (sales discount : ℚ) : ℚ :=
  if discount < 1 then sales / (1 - discount) - sales else 0

structure ItemFact where
  customer_id : Nat
  location_id : Nat
  calendar_id : Nat
  product_id : Nat
  order_code : String
  quantity : Int
  sales : ℚ
  discount : ℚ
  lost_value : ℚ
  profit : ℚ
deriving DecidableEq

/-- load_item_fact_table, etl.py lines 445-552, given the step 1
mappings: one pass over the rows; a row whose four key lookups are not
all truthy (in Python not all([..]) is true when a lookup is None or 0,
lines 489-496) is skipped and counted, any other row is inserted.
Result: the inserted facts in row order and the skipped count.  The
rows of the embedding are well typed, so the per-row exception handler
of lines 543-545 (malformed values such as a non-numeric measure) has
no reachable counterpart. -/
def load_item_fact_table (m : Mappings) : List Row → List ItemFact × Nat
  | [] => ([], 0)
  | r :: rest =>
    let res := load_item_fact_table m rest
    match m.customer r.customerId, m.product r.productId,
        m.calendar r.orderDate, m.location (r.postalCode, r.city) with
    | some customer_id, some product_id, some calendar_id, some location_id =>
      if customer_id ≠ 0 ∧ product_id ≠ 0 ∧ calendar_id ≠ 0 ∧ location_id ≠ 0 then
        (⟨customer_id, location_id, calendar_id, product_id, r.orderId,
          r.quantity, r.sales, r.discount, lost_value r.sales r.discount,
          r.profit⟩ :: res.1, res.2)
      else (res.1, res.2 + 1)
    | _, _, _, _ => (res.1, res.2 + 1)

/-- The group keys of df.groupby("Order ID"), etl.py line 582: the
distinct order ids, iterated in sorted order. -/
def orderIds (df : List Row) : List String :=
  List.insertionSort strLe (dedupFirst (df.map (·.orderId)))

/-- The rows of one order group, in original dataframe order (pandas
groupby preserves the within-group row order). -/
def orderGroup (df : List Row) (oid : String) : List Row :=
  df.filter (fun r => r.orderId = oid)

/-- Order-level measures of etl.py lines 621-639: sums of Quantity,
Sales and Profit over the items of the order, and the accumulated lost
value, where each item adds full price minus sales only when its
discount is below 1 (lines 629-636). -/
def orderMeasures (items : List Row) : Int × ℚ × ℚ × ℚ :=
  let quantity_order : Int := (items.map (·.quantity)).sum
  let sales_order : ℚ := (items.map (·.sales)).sum
  let profit_order : ℚ := (items.map (·.profit)).sum
  let lost_value_order : ℚ := items.foldl
    (fun acc it =>
      if it.discount < 1 then acc + (it.sales / (1 - it.discount) - it.sales)
      else acc) 0
  (quantity_order, sales_order, profit_order, lost_value_order)

structure OrderFact where
  order_calendar_id : Nat
  shipping_calendar_id : Nat
  customer_id : Nat
  location_id : Nat
  shipping_id : Nat
  order_code : String
  sales_order : ℚ
  quantity_order : Int
  lost_value_order : ℚ
  profit_order : ℚ
deriving DecidableEq

/-- The per-group loop of load_orders_fact_table, etl.py lines 587-674:
the first row of the group provides the shared attributes and the key
lookups (line 590); a group with a non-truthy lookup is skipped and
counted (lines 604-619), any other group is inserted with the
order-level measures.  As in the Item loader, the per-group exception
handler for malformed values has no reachable counterpart over typed
rows. -/
def load_orders_loop (m : Mappings) (df : List Row) :
    List String → List OrderFact × Nat
  | [] => ([], 0)
  | oid :: rest =>
    let res := load_orders_loop m df rest
    let grp := orderGroup df oid
    let fr := grp.headI
    match m.customer fr.customerId, m.calendar fr.orderDate,
        m.calendar fr.shipDate, m.location (fr.postalCode, fr.city),
        m.shipping fr.shipMode with
    | some customer_id, some order_calendar_id, some shipping_calendar_id,
        some location_id, some shipping_id =>
      if customer_id ≠ 0 ∧ order_calendar_id ≠ 0 ∧ shipping_calendar_id ≠ 0 ∧
          location_id ≠ 0 ∧ shipping_id ≠ 0 then
        (⟨order_calendar_id, shipping_calendar_id, customer_id, location_id,
          shipping_id, oid, (orderMeasures grp).2.1, (orderMeasures grp).1,
          (orderMeasures grp).2.2.2, (orderMeasures grp).2.2.1⟩ :: res.1,
         res.2)
      else (res.1, res.2 + 1)
    | _, _, _, _, _ => (res.1, res.2 + 1)

/-- load_orders_fact_table, etl.py lines 556-681, given the step 1
mappings. -/
def load_orders_fact_table (m : Mappings) (df : List Row) :
    List OrderFact × Nat :=
  load_orders_loop m df (orderIds df)

/-- The in-place column assignment of etl.py lines 706-708 and 841-843:
the year and month columns derived from Order Date are added onto the
dataframe object that the caller passed in. -/
def setYearMonth (r : Row) : Row :=
  { r with yearCol := some r.orderDate.year, monthCol := some r.orderDate.month }

def addYearMonthColumns (df : List Row) : List Row := df.map setYearMonth

/-- Group key of step 3 of load_order_m_fact_table, etl.py lines
711-715: the year and month columns just assigned, and the State. -/
def ymsKey (r : Row) : Nat × Nat × String :=
  (r.yearCol.getD 0, r.monthCol.getD 0, r.state)

def ymsLe (a b : Nat × Nat × String) : Prop :=
  a.1 < b.1 ∨ (a.1 = b.1 ∧
    (a.2.1 < b.2.1 ∨ (a.2.1 = b.2.1 ∧ strLe a.2.2 b.2.2)))

instance : DecidableRel ymsLe := fun a b => by unfold ymsLe; infer_instance

/-- The distinct (year, month, State) group keys, in the sorted order
produced by groupby. -/
def orderMKeys (df2 : List Row) : List (Nat × Nat × String) :=
  List.insertionSort ymsLe (dedupFirst (df2.map ymsKey))

/-- monthly_lost_value of etl.py lines 718-741: a dict built by one
pass over the rows, accumulating per (year, month, state) derived from
the Order Date the lost value of each row; its entry at a key is the
sum of the lost values of the rows with that key, and a missing key
reads as 0 (line 772). -/
def monthly_lost_value (df2 : List Row) (k : Nat × Nat × String) : ℚ :=
  ((df2.filter
      (fun r => (r.orderDate.year, r.orderDate.month, r.state) = k)).map
    (fun r => lost_value r.sales r.discount)).sum

structure OrderMFact where
  calendar_month_id : Nat
  state_id : Nat
  sales_month : ℚ
  quantity_month : ℚ
  lost_value_month : ℚ
  profit_month : ℚ
deriving DecidableEq

/-- The per-group loop of load_order_m_fact_table steps 3-5, etl.py
lines 711-811: per (year, month, State) group, the sums of Sales,
Quantity (cast to float, line 767) and Profit, the monthly lost value
from the dict, and the two key lookups with skip counting (lines
754-763). -/
def load_order_m_loop (m : Mappings) (df2 : List Row) :
    List (Nat × Nat × String) → List OrderMFact × Nat
  | [] => ([], 0)
  | k :: rest =>
    let res := load_order_m_loop m df2 rest
    let grp := df2.filter (fun r => ymsKey r = k)
    match m.calendarMonth (k.1, k.2.1), m.state k.2.2 with
    | some calendar_month_id, some state_id =>
      if calendar_month_id ≠ 0 ∧ state_id ≠ 0 then
        (⟨calendar_month_id, state_id, (grp.map (·.sales)).sum,
          (((grp.map (·.quantity)).sum : Int) : ℚ),
          monthly_lost_value df2 k,
          (grp.map (·.profit)).sum⟩ :: res.1, res.2)
      else (res.1, res.2 + 1)
    | _, _ => (res.1, res.2 + 1)

/-- load_order_m_fact_table, etl.py lines 685-811, given the step 1
mappings: assigns the year and month columns onto the input dataframe
(lines 706-708, an in-place mutation seen by the caller) and runs the
grouped insert loop.  Returns the mutated dataframe together with the
inserted facts and the skipped count. -/
def load_order_m_fact_table (m : Mappings) (df : List Row) :
    List Row × List OrderMFact × Nat :=
  let df2 := addYearMonthColumns df
  (df2, load_order_m_loop m df2 (orderMKeys df2))

/-- Group key of load_product_performance_fact_table step 3, etl.py
lines 846-850. -/
def csymKey (r : Row) : String × String × Nat × Nat :=
  (r.category, r.state, r.yearCol.getD 0, r.monthCol.getD 0)

def csymLe (a b : String × String × Nat × Nat) : Prop :=
  strLt a.1 b.1 ∨ (a.1 = b.1 ∧ (strLt a.2.1 b.2.1 ∨ (a.2.1 = b.2.1 ∧
    (a.2.2.1 < b.2.2.1 ∨ (a.2.2.1 = b.2.2.1 ∧ a.2.2.2 ≤ b.2.2.2)))))

instance : DecidableRel csymLe := fun a b => by unfold csymLe; infer_instance

/-- One row of grouped_data, etl.py lines 846-850. -/
structure PPGroupRow where
  category : String
  state : String
  year : Nat
  month : Nat
  sales : ℚ
  profit : ℚ
  quantity : Int
deriving DecidableEq

/-- grouped_data of etl.py lines 846-850: one row per distinct
(Category, State, year, month) key, in sorted key order, carrying the
group sums of Sales, Profit and Quantity. -/
def ppGroups (df2 : List Row) : List PPGroupRow :=
  (List.insertionSort csymLe (dedupFirst (df2.map csymKey))).map (fun k =>
    let g := df2.filter (fun r => csymKey r = k)
    ⟨k.1, k.2.1, k.2.2.1, k.2.2.2, (g.map (·.sales)).sum,
     (g.map (·.profit)).sum, (g.map (·.quantity)).sum⟩)

/-- Sort key of etl.py line 857: ascending by Category, State, year,
month. -/
def ppLe (a b : PPGroupRow) : Prop :=
  csymLe (a.category, a.state, a.year, a.month)
    (b.category, b.state, b.year, b.month)

instance : DecidableRel ppLe := fun a b => by unfold ppLe; infer_instance

/-- The running totals computed by the cumulative loop of etl.py lines
860-876, in row order: an accumulator dict keyed by (Category, State)
starts every key at 0, and each row adds its Profit to the total of its
key and records the new total.  In the source each recorded total is
assigned into the row object yielded by iterrows, which is a copy, so
the totals are never written back into grouped_data itself. -/
def cumulativeLoop (acc : String × String → ℚ) :
    List PPGroupRow → List ℚ
  | [] => []
  | g :: rest =>
    let v := acc (g.category, g.state) + g.profit
    v :: cumulativeLoop
      (fun k2 => if k2 = (g.category, g.state) then v else acc k2) rest

def cumulativeProfitValues (rows : List PPGroupRow) : List ℚ :=
  cumulativeLoop (fun _ => 0) rows

structure PPFact where
  category_id : Nat
  state_id : Nat
  calendar_month_id : Nat
  total_sales : ℚ
  total_profit : ℚ
  cumulative_profit : ℚ
  total_quantity : Int
deriving DecidableEq

/-- load_product_performance_fact_table, etl.py lines 815-951, given
the step 1 mappings.  Steps 2-4 assign the year and month columns onto
the caller dataframe, build grouped_data, sort it, and run the
cumulative-profit loop; the loop stores each running total into the row
copy yielded by iterrows (line 876), so grouped_data never gains a
cumulative_profit column.  Line 883 then evaluates
grouped_data[:, [cumulative_profit]], which is not valid pandas
DataFrame indexing (a tuple key containing a list) and raises, so the
loader aborts before the insert loop of lines 885-951 runs: no row is
inserted or counted as skipped.  The mutated dataframe is returned
together with the raised error. -/
def load_product_performance_fact_table (_m : Mappings) (df : List Row) :
    List Row × Except String (List PPFact × Nat) :=
  let df2 := addYearMonthColumns df
  let grouped := ppGroups df2
  let sortedGroups := List.insertionSort ppLe grouped
  let _ := cumulativeProfitValues sortedGroups
  (df2, Except.error "InvalidIndexError")

/-- Concrete row builder: order id, product id, order date, state,
category, quantity, sales, discount, profit; the remaining natural-key
fields are fixed test values. -/
def mkRow (oid pid : String) (od : Date) (st cat : String) (q : Int)
    (s d p : ℚ) : Row :=
  ⟨oid, pid, "CU1", "Customer", "Consumer", od, od, "Standard Class",
   "United States", "West", st, "LA", "90001", cat, "Chairs", "Chair",
   q, s, d, p, none, none⟩

/-- Two duplicate line items of the same order and product, used for
the reordering example. -/
def rowDupA : Row := mkRow "O1" "P1" ⟨2020, 1, 5⟩ "California" "Technology" 2 100 0 10

def rowDupB : Row := mkRow "O1" "P1" ⟨2020, 1, 5⟩ "California" "Technology" 3 60 0 6

def dfDup : List Row := [rowDupA, rowDupB]

/-- The two line items of the Orders example: (sales 100, profit 10,
quantity 2, discount 0.1) and (sales 50, profit 5, quantity 1,
discount 0), both of order O1. -/
def rowOrd1 : Row := mkRow "O1" "P1" ⟨2020, 1, 5⟩ "California" "Technology" 2 100 (1/10) 10

def rowOrd2 : Row := mkRow "O1" "P2" ⟨2020, 1, 5⟩ "California" "Technology" 1 50 0 5

def dfOrder : List Row := [rowOrd1, rowOrd2]

/-- Mappings under which every dimension lookup succeeds with id 1. -/
def mAll : Mappings :=
  ⟨fun _ => some 1, fun _ => some 1, fun _ => some 1, fun _ => some 1,
   fun _ => some 1, fun _ => some 1, fun _ => some 1, fun _ => some 1⟩

/-- The Orders fact the loader produces for dfOrder under mAll. -/
def orderFactEx : OrderFact := ⟨1, 1, 1, 1, 1, "O1", 150, 3, 100/9, 15⟩

/-- Three monthly rows of one (category, state) pair with profits
10, -5 and 20 in chronological order. -/
def rowPP1 : Row := mkRow "O1" "P1" ⟨2020, 1, 5⟩ "CA" "Tech" 1 100 0 10

def rowPP2 : Row := mkRow "O2" "P1" ⟨2020, 2, 5⟩ "CA" "Tech" 1 100 0 (-5)

def rowPP3 : Row := mkRow "O3" "P1" ⟨2020, 3, 5⟩ "CA" "Tech" 1 100 0 20

def dfPP : List Row := [rowPP1, rowPP2, rowPP3]

/-- Statement shape of the dimension-key-mapping claim: f is defined
exactly on the observed values, is injective, reaches exactly the ids 1
to N (N the number of distinct observed values), and orders the ids by
the first occurrence of the values. -/
def FirstOccurrenceEnumeration {κ : Type} [DecidableEq κ] (V : List κ)
    (f : κ → Option Nat) : Prop :=
  (∀ v ∈ V, ∃ i, f v = some i ∧ 1 ≤ i ∧ i ≤ (dedupFirst V).length) ∧
  (∀ v, v ∉ V → f v = none) ∧
  (∀ u v i, f u = some i → f v = some i → u = v) ∧
  (∀ i, 1 ≤ i → i ≤ (dedupFirst V).length → ∃ v ∈ V, f v = some i) ∧
  (∀ u v iu iv, u ≠ v → f u = some iu → f v = some iv →
    (iu < iv ↔ V.findIdx (fun b => b = u) < V.findIdx (fun b => b = v)))

theorem mem_dedupFirstAux {κ : Type} [DecidableEq κ] :
    ∀ (t seen : List κ) (a : κ),
      a ∈ dedupFirstAux seen t ↔ a ∈ t ∧ a ∉ seen := by
  intro t
  induction t with
  | nil => intro seen a; simp [dedupFirstAux]
  | cons b t ih =>
    intro seen a
    by_cases hb : b ∈ seen
    · simp only [dedupFirstAux, if_pos hb, ih, List.mem_cons]
      constructor
      · rintro ⟨h1, h2⟩
        exact ⟨Or.inr h1, h2⟩
      · rintro ⟨h1, h2⟩
        rcases h1 with h | h
        · exact absurd (h ▸ hb) h2
        · exact ⟨h, h2⟩
    · simp only [dedupFirstAux, if_neg hb, List.mem_cons, ih]
      by_cases hab : a = b
      · subst hab
        simp [hb]
      · simp [hab]

theorem nodup_dedupFirstAux {κ : Type} [DecidableEq κ] :
    ∀ (t seen : List κ), (dedupFirstAux seen t).Nodup := by
  intro t
  induction t with
  | nil => intro seen; simp [dedupFirstAux]
  | cons b t ih =>
    intro seen
    by_cases hb : b ∈ seen
    · simp only [dedupFirstAux, if_pos hb]
      exact ih seen
    · simp only [dedupFirstAux, if_neg hb]
      refine List.nodup_cons.mpr ⟨?_, ih (b :: seen)⟩
      intro hmem
      exact ((mem_dedupFirstAux t (b :: seen) b).mp hmem).2
        (List.mem_cons_self b seen)

theorem dedupFirstAux_sublist {κ : Type} [DecidableEq κ] :
    ∀ (t seen : List κ), (dedupFirstAux seen t).Sublist t := by
  intro t
  induction t with
  | nil => intro seen; simp [dedupFirstAux]
  | cons b t ih =>
    intro seen
    by_cases hb : b ∈ seen
    · simp only [dedupFirstAux, if_pos hb]
      exact (ih seen).cons b
    · simp only [dedupFirstAux, if_neg hb]
      exact (ih (b :: seen)).cons₂ b

theorem mem_dedupFirst {κ : Type} [DecidableEq κ] (l : List κ) (a : κ) :
    a ∈ dedupFirst l ↔ a ∈ l := by
  rw [dedupFirst, mem_dedupFirstAux]
  simp

theorem nodup_dedupFirst {κ : Type} [DecidableEq κ] (l : List κ) :
    (dedupFirst l).Nodup :=
  nodup_dedupFirstAux l []

theorem dedupFirst_sublist {κ : Type} [DecidableEq κ] (l : List κ) :
    (dedupFirst l).Sublist l :=
  dedupFirstAux_sublist l []

theorem idxIn_isSome_iff_mem {κ : Type} [DecidableEq κ] (l : List κ) (v : κ) :
    (idxIn l v).isSome ↔ v ∈ l := by
  induction l with
  | nil => simp [idxIn]
  | cons a t ih =>
    by_cases h : a = v
    · subst h; simp [idxIn]
    · simp [idxIn, h, ih, Option.isSome_map, Ne.symm h]

theorem idxIn_eq_none_of_not_mem {κ : Type} [DecidableEq κ] {l : List κ} {v : κ}
    (h : v ∉ l) : idxIn l v = none := by
  have := (idxIn_isSome_iff_mem l v).not.mpr h
  cases heq : idxIn l v with
  | none => rfl
  | some i => rw [heq] at this; simp at this

theorem idxIn_lt_length {κ : Type} [DecidableEq κ] :
    ∀ (l : List κ) (v : κ) (i : Nat), idxIn l v = some i → i < l.length := by
  intro l
  induction l with
  | nil => intro v i h; simp [idxIn] at h
  | cons a t ih =>
    intro v i h
    by_cases hav : a = v
    · simp only [idxIn, if_pos hav, Option.some.injEq] at h
      simp only [List.length_cons]
      omega
    · simp only [idxIn, if_neg hav, Option.map_eq_some'] at h
      obtain ⟨j, hj, hji⟩ := h
      have := ih v j hj
      simp only [List.length_cons]
      omega

theorem idxIn_get {κ : Type} [DecidableEq κ] :
    ∀ (l : List κ), l.Nodup → ∀ (i : Nat) (h : i < l.length),
      idxIn l l[i] = some i := by
  intro l
  induction l with
  | nil => intro _ i h; simp at h
  | cons a t ih =>
    intro hnd i h
    rcases List.nodup_cons.mp hnd with ⟨ha, hndt⟩
    cases i with
    | zero => simp [idxIn]
    | succ j =>
      have hjt : j < t.length := by simpa using h
      have hne : a ≠ t[j] := by
        intro heq
        exact ha (heq ▸ List.getElem_mem hjt)
      simp only [List.getElem_cons_succ]
      simp [idxIn, if_neg hne, ih hndt j hjt]

theorem idxIn_inj {κ : Type} [DecidableEq κ] :
    ∀ (l : List κ) (u v : κ) (i : Nat),
      idxIn l u = some i → idxIn l v = some i → u = v := by
  intro l
  induction l with
  | nil => intro u v i h _; simp [idxIn] at h
  | cons a t ih =>
    intro u v i hu hv
    by_cases hau : a = u <;> by_cases hav : a = v
    · exact hau ▸ hav
    · simp only [idxIn, if_pos hau, Option.some.injEq] at hu
      simp only [idxIn, if_neg hav, Option.map_eq_some'] at hv
      obtain ⟨j, _, hji⟩ := hv
      omega
    · simp only [idxIn, if_neg hau, Option.map_eq_some'] at hu
      simp only [idxIn, if_pos hav, Option.some.injEq] at hv
      obtain ⟨j, _, hji⟩ := hu
      omega
    · simp only [idxIn, if_neg hau, Option.map_eq_some'] at hu
      simp only [idxIn, if_neg hav, Option.map_eq_some'] at hv
      obtain ⟨j, hj, hji⟩ := hu
      obtain ⟨j2, hj2, hj2i⟩ := hv
      have hjj : j = j2 := by omega
      subst hjj
      exact ih u v j hj hj2

theorem idxIn_surj {κ : Type} [DecidableEq κ] (l : List κ) (hnd : l.Nodup)
    (i : Nat) (h : i < l.length) : ∃ v ∈ l, idxIn l v = some i :=
  ⟨l[i], List.getElem_mem h, idxIn_get l hnd i h⟩

theorem preprocessLoop_fst :
    ∀ (ks : List (String × String)) (processed : List Row),
      (preprocessLoop ks processed).1
        = processed.filter (fun r => ¬ rowKey r ∈ ks) := by
  intro ks
  induction ks with
  | nil =>
    intro processed
    simp [preprocessLoop]
  | cons k ks ih =>
    intro processed
    rw [preprocessLoop]
    simp only
    rw [ih, List.filter_filter]
    refine List.filter_congr ?_
    intro r _
    by_cases h1 : rowKey r ∈ ks <;> by_cases h2 : rowKey r = k <;>
      simp [h1, h2]

theorem preprocessLoop_snd :
    ∀ (ks : List (String × String)) (processed df : List Row),
      ks.Nodup →
      (∀ k ∈ ks, processed.filter (fun r => rowKey r = k)
          = df.filter (fun r => rowKey r = k)) →
      (preprocessLoop ks processed).2
        = ks.map (fun k => mergeGroup (df.filter (fun r => rowKey r = k))) := by
  intro ks
  induction ks with
  | nil => intro processed df _ _; simp [preprocessLoop]
  | cons k ks ih =>
    intro processed df hnd hgrp
    rcases List.nodup_cons.mp hnd with ⟨hk, hndks⟩
    rw [preprocessLoop]
    simp only [List.map_cons]
    refine congrArg₂ _ ?_ ?_
    · exact congrArg mergeGroup (hgrp k (List.mem_cons_self k ks))
    · refine ih _ df hndks ?_
      intro k2 hk2
      rw [List.filter_filter]
      rw [← hgrp k2 (List.mem_cons_of_mem k hk2)]
      refine List.filter_congr ?_
      intro r _
      by_cases h1 : rowKey r = k2
      · have hne : ¬ k2 = k := fun hcon => hk (hcon ▸ hk2)
        simp [h1, hne]
      · simp [h1]

theorem nodup_duplicateKeys (df : List Row) : (duplicateKeys df).Nodup := by
  unfold duplicateKeys
  exact List.Nodup.filter _
    ((List.perm_insertionSort pairLe (dedupFirst (df.map rowKey))).symm.nodup
      (nodup_dedupFirst (df.map rowKey)))

theorem mem_duplicateKeys (df : List Row) (k : String × String) :
    k ∈ duplicateKeys df ↔ k ∈ df.map rowKey ∧ 1 < countKey df k := by
  unfold duplicateKeys
  rw [List.mem_filter]
  rw [List.mem_insertionSort]
  rw [mem_dedupFirst]
  simp

theorem countKey_eq_countP (df : List Row) (k : String × String) :
    countKey df k = df.countP (fun r => rowKey r = k) :=
  (List.countP_eq_length_filter _ _).symm

theorem countKey_pos {df : List Row} {r : Row} (h : r ∈ df) :
    0 < countKey df (rowKey r) := by
  rw [countKey_eq_countP]
  exact List.countP_pos_iff.mpr ⟨r, h, by simp⟩

theorem mergeGroup_rowKey (rows : List Row) :
    rowKey (mergeGroup rows) = rowKey rows.headI := rfl

theorem rowKey_mergeGroup_of_mem_duplicateKeys {df : List Row}
    {k : String × String} (h : k ∈ duplicateKeys df) :
    rowKey (mergeGroup (df.filter (fun r => rowKey r = k))) = k := by
  have hpos : 0 < countKey df k := by
    have := (mem_duplicateKeys df k).mp h
    omega
  rw [countKey] at hpos
  rw [List.length_pos] at hpos
  rw [mergeGroup_rowKey]
  cases hE : df.filter (fun r => rowKey r = k) with
  | nil => exact absurd hE hpos
  | cons r t =>
    have hr : r ∈ df.filter (fun r => rowKey r = k) := by
      rw [hE]; exact List.mem_cons_self r t
    have hrk := (List.mem_filter.mp hr).2
    simp only [decide_eq_true_eq] at hrk
    simpa [List.headI] using hrk

/-- Closed form of the deduplication step: the pass-through rows, which
are exactly the rows of a singleton (Order ID, Product ID) group, in
their original relative order, followed by one merged row for each
duplicate key. -/
theorem preprocess_eq (df : List Row) :
    preprocess_merge_duplicate_products df =
      df.filter (fun r => countKey df (rowKey r) = 1) ++
      (duplicateKeys df).map
        (fun k => mergeGroup (df.filter (fun r => rowKey r = k))) := by
  unfold preprocess_merge_duplicate_products
  refine congrArg₂ _ ?_ ?_
  · rw [preprocessLoop_fst]
    refine List.filter_congr ?_
    intro r hr
    have hpos := countKey_pos hr
    have hmem : rowKey r ∈ df.map rowKey := List.mem_map_of_mem rowKey hr
    by_cases h1 : countKey df (rowKey r) = 1
    · have : ¬ rowKey r ∈ duplicateKeys df := by
        rw [mem_duplicateKeys]
        omega
      simp [this, h1]
    · have : rowKey r ∈ duplicateKeys df := by
        rw [mem_duplicateKeys]
        exact ⟨hmem, by omega⟩
      simp [this, h1]
  · exact preprocessLoop_snd _ df df (nodup_duplicateKeys df) (fun _ _ => rfl)

theorem nodup_map_of_countP_le_one {κ : Type} [DecidableEq κ] (f : Row → κ) :
    ∀ l : List Row, (∀ k : κ, l.countP (fun r => f r = k) ≤ 1) →
      (l.map f).Nodup := by
  intro l
  induction l with
  | nil => intro _; simp
  | cons a t ih =>
    intro h
    simp only [List.map_cons, List.nodup_cons]
    constructor
    · intro hmem
      obtain ⟨r, hr, hf⟩ := List.mem_map.mp hmem
      have h2 : 2 ≤ (a :: t).countP (fun r => f r = f a) := by
        rw [List.countP_cons]
        have hpos : 0 < t.countP (fun r => f r = f a) :=
          List.countP_pos_iff.mpr ⟨r, hr, by simp [hf]⟩
        have hdec : (decide (f a = f a)) = true := by simp
        rw [hdec, if_pos rfl]
        omega
      have := h (f a)
      omega
    · refine ih ?_
      intro k
      have := h k
      rw [List.countP_cons] at this
      omega

theorem countP_passthrough_le_one (df : List Row) (k : String × String) :
    (df.filter (fun r => countKey df (rowKey r) = 1)).countP
      (fun r => rowKey r = k) ≤ 1 := by
  by_cases h1 : countKey df k = 1
  · calc (df.filter (fun r => countKey df (rowKey r) = 1)).countP
          (fun r => rowKey r = k)
        ≤ df.countP (fun r => rowKey r = k) :=
          List.Sublist.countP_le _ (List.filter_sublist df)
      _ = countKey df k := (countKey_eq_countP df k).symm
      _ = 1 := h1
  · have : (df.filter (fun r => countKey df (rowKey r) = 1)).countP
        (fun r => rowKey r = k) = 0 := by
      rw [List.countP_eq_zero]
      intro r hr
      have hP := (List.mem_filter.mp hr).2
      simp only [decide_eq_true_eq] at hP ⊢
      intro hk
      rw [hk] at hP
      exact h1 hP
    omega

theorem map_rowKey_merged (df : List Row) :
    ((duplicateKeys df).map
      (fun k => mergeGroup (df.filter (fun r => rowKey r = k)))).map rowKey
      = duplicateKeys df := by
  rw [List.map_map]
  refine (List.map_congr_left ?_).trans (List.map_id _)
  intro k hk
  exact rowKey_mergeGroup_of_mem_duplicateKeys hk

theorem nodup_keys_preprocess (df : List Row) :
    ((preprocess_merge_duplicate_products df).map rowKey).Nodup := by
  rw [preprocess_eq, List.map_append]
  refine List.Nodup.append ?_ ?_ ?_
  · exact nodup_map_of_countP_le_one rowKey _ (countP_passthrough_le_one df)
  · rw [map_rowKey_merged]
    exact nodup_duplicateKeys df
  · intro k hk1 hk2
    rw [map_rowKey_merged] at hk2
    obtain ⟨r, hr, hfk⟩ := List.mem_map.mp hk1
    have hP := (List.mem_filter.mp hr).2
    simp only [decide_eq_true_eq] at hP
    rw [hfk] at hP
    have := (mem_duplicateKeys df k).mp hk2
    omega

theorem mem_keys_preprocess (df : List Row) (k : String × String) :
    k ∈ (preprocess_merge_duplicate_products df).map rowKey
      ↔ k ∈ df.map rowKey := by
  rw [preprocess_eq, List.map_append, List.mem_append, map_rowKey_merged]
  constructor
  · rintro (h | h)
    · obtain ⟨r, hr, hfk⟩ := List.mem_map.mp h
      exact hfk ▸ List.mem_map_of_mem rowKey (List.mem_filter.mp hr).1
    · exact ((mem_duplicateKeys df k).mp h).1
  · intro h
    obtain ⟨r, hr, hfk⟩ := List.mem_map.mp h
    by_cases h1 : countKey df k = 1
    · refine Or.inl (List.mem_map.mpr ⟨r, List.mem_filter.mpr ⟨hr, ?_⟩, hfk⟩)
      simp only [decide_eq_true_eq]
      rw [hfk]
      exact h1
    · refine Or.inr ((mem_duplicateKeys df k).mpr ⟨h, ?_⟩)
      have : 0 < countKey df k := hfk ▸ countKey_pos hr
      omega

/-- The row count of the deduplicated dataframe is the number of
distinct (Order ID, Product ID) pairs of the input. -/
theorem length_preprocess (df : List Row) :
    (preprocess_merge_duplicate_products df).length
      = (df.map rowKey).toFinset.card := by
  have h1 : (preprocess_merge_duplicate_products df).length
      = ((preprocess_merge_duplicate_products df).map rowKey).length := by
    rw [List.length_map]
  rw [h1, ← List.toFinset_card_of_nodup (nodup_keys_preprocess df)]
  refine congrArg Finset.card ?_
  rw [Finset.ext_iff]
  intro k
  rw [List.mem_toFinset, List.mem_toFinset]
  exact mem_keys_preprocess df k

theorem sum_map_filter_add {α : Type} {M : Type} [AddCommMonoid M]
    (p : α → Bool) (f : α → M) :
    ∀ l : List α,
      ((l.filter p).map f).sum + ((l.filter (fun a => !(p a))).map f).sum
        = (l.map f).sum := by
  intro l
  induction l with
  | nil => simp
  | cons a t ih =>
    rw [List.map_cons, List.sum_cons, List.filter_cons, List.filter_cons]
    by_cases h : p a
    · rw [if_pos h, if_neg (by simp [h]), List.map_cons, List.sum_cons,
        add_assoc, ih]
    · rw [if_neg h, if_pos (by simp [h]), List.map_cons, List.sum_cons,
        add_left_comm, ih]

theorem preprocessLoop_sum {M : Type} [AddCommMonoid M] (f : Row → M)
    (hf : ∀ rows : List Row, f (mergeGroup rows) = (rows.map f).sum) :
    ∀ (ks : List (String × String)) (processed : List Row),
      ((preprocessLoop ks processed).1.map f).sum
        + ((preprocessLoop ks processed).2.map f).sum
        = (processed.map f).sum := by
  intro ks
  induction ks with
  | nil => intro processed; simp [preprocessLoop]
  | cons k ks ih =>
    intro processed
    rw [preprocessLoop]
    simp only [List.map_cons, List.sum_cons]
    rw [hf, add_left_comm, ih]
    have hnot : processed.filter (fun r => decide (¬ rowKey r = k))
        = processed.filter (fun r => !(decide (rowKey r = k))) := by
      refine List.filter_congr ?_
      intro r _
      simp [decide_not]
    rw [hnot]
    exact sum_map_filter_add (fun r => decide (rowKey r = k)) f processed

theorem sum_preprocess {M : Type} [AddCommMonoid M] (f : Row → M)
    (hf : ∀ rows : List Row, f (mergeGroup rows) = (rows.map f).sum)
    (df : List Row) :
    ((preprocess_merge_duplicate_products df).map f).sum = (df.map f).sum := by
  unfold preprocess_merge_duplicate_products
  rw [List.map_append, List.sum_append]
  exact preprocessLoop_sum f hf (duplicateKeys df) df

/-- C2: for every input line-item set, the deduplicated output has
exactly one row per distinct (Order ID, Product ID) pair — its key list
is duplicate-free with the same members as the key list of the input,
and its row count is the number of distinct observed pairs — and the
sums of Quantity, Sales and Profit over the output equal the sums over
the raw input. -/
theorem preprocess_one_row_per_pair_and_sums (df : List Row) :
    ((preprocess_merge_duplicate_products df).map rowKey).Nodup ∧
    (∀ k, k ∈ (preprocess_merge_duplicate_products df).map rowKey
        ↔ k ∈ df.map rowKey) ∧
    (preprocess_merge_duplicate_products df).length
      = (df.map rowKey).toFinset.card ∧
    ((preprocess_merge_duplicate_products df).map (·.quantity)).sum
      = (df.map (·.quantity)).sum ∧
    ((preprocess_merge_duplicate_products df).map (·.sales)).sum
      = (df.map (·.sales)).sum ∧
    ((preprocess_merge_duplicate_products df).map (·.profit)).sum
      = (df.map (·.profit)).sum :=
  ⟨nodup_keys_preprocess df, mem_keys_preprocess df, length_preprocess df,
   sum_preprocess _ (fun _ => rfl) df,
   sum_preprocess _ (fun _ => rfl) df,
   sum_preprocess _ (fun _ => rfl) df⟩

/-- C10: deduplication emits the pass-through rows (those of singleton
groups) first, in their original relative order since they are a filter
of the input, and appends every merged row after them; consequently the
first line item of an order that the Orders aggregator picks (the head
of the order group, etl.py line 590) is taken over the reordered
dataset, and on the concrete duplicate pair dfDup it differs from the
head of the order group of the original input. -/
theorem preprocess_reorders_merged_after_passthrough :
    (∀ df : List Row,
      preprocess_merge_duplicate_products df =
        df.filter (fun r => countKey df (rowKey r) = 1) ++
        (duplicateKeys df).map
          (fun k => mergeGroup (df.filter (fun r => rowKey r = k)))) ∧
    (orderGroup (preprocess_merge_duplicate_products dfDup) "O1").headI
      ≠ (orderGroup dfDup "O1").headI :=
  ⟨preprocess_eq, by decide⟩

/-- Helper: the lost value formula is nonnegative for nonnegative sales
and a discount in the unit interval. -/
theorem lost_value_nonneg {s d : ℚ} (hs : 0 ≤ s) (hd0 : 0 ≤ d)
    (hd1 : d < 1) : 0 ≤ lost_value s d := by
  rw [lost_value, if_pos hd1]
  have h1d : (0:ℚ) < 1 - d := by linarith
  rw [sub_nonneg, le_div_iff₀ h1d]
  nlinarith

/-- C4 counterexample: a row with negative sales and discount one half
satisfies the premises of the claim (discount in the unit interval) but
has a negative lost value. -/
theorem lost_value_negative_on_negative_sales :
    (0:ℚ) ≤ 1/2 ∧ (1/2:ℚ) < 1 ∧ lost_value (-10) (1/2) < 0 := by
  refine ⟨by norm_num, by norm_num, ?_⟩
  rw [lost_value, if_pos (by norm_num)]
  norm_num

/-- C4 (amended): lost_value equals sales divided by one minus discount
minus sales for discount in the unit interval, equals 0 for discount at
least 1, and is nonnegative for discount in the unit interval whenever
sales is nonnegative. -/
theorem lost_value_spec :
    (∀ s d : ℚ, 0 ≤ d → d < 1 → lost_value s d = s / (1 - d) - s) ∧
    (∀ s d : ℚ, 1 ≤ d → lost_value s d = 0) ∧
    (∀ s d : ℚ, 0 ≤ s → 0 ≤ d → d < 1 → 0 ≤ lost_value s d) := by
  refine ⟨?_, ?_, ?_⟩
  · intro s d _ hd1
    rw [lost_value, if_pos hd1]
  · intro s d hd
    rw [lost_value, if_neg (not_lt.mpr hd)]
  · intro s d hs hd0 hd1
    exact lost_value_nonneg hs hd0 hd1

theorem lost_value_spec_witness :
    lost_value 100 (1/10) = 1000/9 - 100 ∧
    lost_value 100 2 = 0 ∧
    0 ≤ lost_value 100 (1/10) := by
  refine ⟨?_, lost_value_spec.2.1 100 2 (by norm_num),
    lost_value_spec.2.2 100 (1/10) (by norm_num) (by norm_num) (by norm_num)⟩
  rw [lost_value_spec.1 100 (1/10) (by norm_num) (by norm_num)]
  norm_num

theorem fsum_cons (x : Option ℚ) (l : List (Option ℚ)) :
    fsum (x :: l) = match x, fsum l with
      | some a, some b => some (a + b)
      | _, _ => none := rfl

theorem fsum_map_some {α : Type} (g : α → ℚ) :
    ∀ l : List α, fsum (l.map (fun a => some (g a))) = some ((l.map g).sum) := by
  intro l
  induction l with
  | nil => simp [fsum]
  | cons a t ih =>
    rw [List.map_cons, fsum_cons, ih]
    simp

theorem sum_map_div {α : Type} (g : α → ℚ) (c : ℚ) :
    ∀ l : List α, (l.map (fun a => g a / c)).sum = (l.map g).sum / c := by
  intro l
  induction l with
  | nil => simp
  | cons a t ih => simp [List.map_cons, List.sum_cons, ih, add_div]

theorem weighted_discount_avg :
    ∀ dq : List (ℚ × Int), (dq.map (·.2)).sum ≠ 0 →
      weightedDiscountF dq
        = some ((dq.map (fun p => p.1 * (p.2 : ℚ))).sum
            / (((dq.map (·.2)).sum : Int) : ℚ)) := by
  intro dq hQ
  have hQQ : (((dq.map (·.2)).sum : Int) : ℚ) ≠ 0 := by
    exact_mod_cast hQ
  have hunfold : weightedDiscountF dq
      = fsum (dq.map (fun p => fdiv (p.1 * (p.2 : ℚ))
          (((dq.map (·.2)).sum : Int) : ℚ))) := rfl
  rw [hunfold]
  have hmap : dq.map
      (fun p => fdiv (p.1 * (p.2 : ℚ)) (((dq.map (·.2)).sum : Int) : ℚ))
      = dq.map (fun p =>
          some (p.1 * (p.2 : ℚ) / (((dq.map (·.2)).sum : Int) : ℚ))) := by
    refine List.map_congr_left ?_
    intro p _
    rw [fdiv, if_neg hQQ]
  rw [hmap, fsum_map_some, sum_map_div]

/-- C3: the weighted-discount computation of the merge step divides by
the group total quantity with no guard.  For the concrete duplicate
group with quantities 0 and 0 the divisor (the total quantity) is 0,
and a float division with zero divisor has no finite result, so every
per-element division of etl.py line 111 is an unguarded division by
zero there; whenever the total quantity is nonzero every term is
finite and the computed discount is the quantity-weighted average
sum(d_i q_i) / sum(q_i). -/
theorem weighted_discount_zero_total_quantity :
    (([((1:ℚ)/5, (0:Int)), ((2:ℚ)/5, (0:Int))].map (·.2)).sum = 0) ∧
    (∀ x : ℚ, fdiv x 0 = none) ∧
    (∀ dq : List (ℚ × Int), (dq.map (·.2)).sum ≠ 0 →
      weightedDiscountF dq
        = some ((dq.map (fun p => p.1 * (p.2 : ℚ))).sum
            / (((dq.map (·.2)).sum : Int) : ℚ))) :=
  ⟨by decide, fun x => by simp [fdiv], weighted_discount_avg⟩

theorem weighted_discount_witness :
    (([((1:ℚ)/5, (2:Int)), ((2:ℚ)/5, (3:Int))].map (·.2)).sum ≠ 0) ∧
    weightedDiscountF [((1:ℚ)/5, (2:Int)), ((2:ℚ)/5, (3:Int))]
      = some (8/25) := by
  refine ⟨by decide, ?_⟩
  rw [weighted_discount_zero_total_quantity.2.2 _ (by decide)]
  norm_num

theorem orderLost_foldl (items : List Row) :
    ∀ a : ℚ, items.foldl (fun acc it =>
        if it.discount < 1 then acc + (it.sales / (1 - it.discount) - it.sales)
        else acc) a
      = a + (items.map (fun r => lost_value r.sales r.discount)).sum := by
  induction items with
  | nil => intro a; simp
  | cons r t ih =>
    intro a
    rw [List.foldl_cons]
    by_cases h : r.discount < 1
    · rw [if_pos h, ih, List.map_cons, List.sum_cons, lost_value, if_pos h]
      ring
    · rw [if_neg h, ih, List.map_cons, List.sum_cons, lost_value, if_neg h]
      ring

theorem orderMeasures_eq (items : List Row) :
    orderMeasures items
      = ((items.map (·.quantity)).sum, (items.map (·.sales)).sum,
         (items.map (·.profit)).sum,
         (items.map (fun r => lost_value r.sales r.discount)).sum) := by
  have h : orderMeasures items
      = ((items.map (·.quantity)).sum, (items.map (·.sales)).sum,
         (items.map (·.profit)).sum,
         items.foldl (fun acc it =>
           if it.discount < 1 then acc + (it.sales / (1 - it.discount) - it.sales)
           else acc) 0) := rfl
  rw [h, orderLost_foldl items 0, zero_add]

theorem load_orders_loop_measures (m : Mappings) (df : List Row) :
    ∀ (ks : List String) (f : OrderFact), f ∈ (load_orders_loop m df ks).1 →
      f.sales_order = ((orderGroup df f.order_code).map (·.sales)).sum ∧
      f.quantity_order = ((orderGroup df f.order_code).map (·.quantity)).sum ∧
      f.profit_order = ((orderGroup df f.order_code).map (·.profit)).sum ∧
      f.lost_value_order = ((orderGroup df f.order_code).map
        (fun r => lost_value r.sales r.discount)).sum := by
  intro ks
  induction ks with
  | nil =>
    intro f hf
    simp [load_orders_loop] at hf
  | cons oid rest ih =>
    intro f hf
    simp only [load_orders_loop] at hf
    split at hf
    · split at hf
      · rcases List.mem_cons.mp hf with hEq | hMem
        · subst hEq
          simp [orderMeasures_eq]
        · exact ih f hMem
      · exact ih f hf
    · exact ih f hf

/-- C5: every fact inserted by the Orders loader carries as measures
the sums of Sales, Quantity (an integer) and Profit over the rows of
its order id group, and the sum of the per-item lost values computed
with the same formula as the Item fact table; and on the concrete
two-item order the measures are quantity 3, sales 150, profit 15 and
lost value 100/9 (about 11.11). -/
theorem load_orders_measures :
    (∀ (m : Mappings) (df : List Row) (f : OrderFact),
      f ∈ (load_orders_fact_table m df).1 →
      f.sales_order = ((orderGroup df f.order_code).map (·.sales)).sum ∧
      f.quantity_order = ((orderGroup df f.order_code).map (·.quantity)).sum ∧
      f.profit_order = ((orderGroup df f.order_code).map (·.profit)).sum ∧
      f.lost_value_order = ((orderGroup df f.order_code).map
        (fun r => lost_value r.sales r.discount)).sum) ∧
    orderMeasures [rowOrd1, rowOrd2] = (3, 150, 15, 100/9) := by
  constructor
  · intro m df f hf
    exact load_orders_loop_measures m df (orderIds df) f hf
  · rw [orderMeasures_eq]
    norm_num [rowOrd1, rowOrd2, mkRow, lost_value]

theorem load_orders_measures_witness :
    orderFactEx ∈ (load_orders_fact_table mAll dfOrder).1 ∧
    orderFactEx.sales_order = ((orderGroup dfOrder "O1").map (·.sales)).sum := by
  have hmem : orderFactEx ∈ (load_orders_fact_table mAll dfOrder).1 := by
    norm_num [load_orders_fact_table, load_orders_loop, orderIds, dedupFirst,
      dedupFirstAux, List.insertionSort, List.orderedInsert, orderGroup,
      orderMeasures_eq, mAll, dfOrder, rowOrd1, rowOrd2, mkRow, orderFactEx,
      lost_value]
  have h := (load_orders_measures.1 mAll dfOrder orderFactEx hmem).1
  exact ⟨hmem, h⟩

theorem load_item_count (m : Mappings) :
    ∀ df : List Row,
      (load_item_fact_table m df).1.length + (load_item_fact_table m df).2
        = df.length := by
  intro df
  induction df with
  | nil => rfl
  | cons r rest ih =>
    simp only [load_item_fact_table]
    split
    · split
      · simp only [List.length_cons]
        omega
      · simp only [List.length_cons]
        omega
    · simp only [List.length_cons]
      omega

theorem load_orders_count (m : Mappings) (df : List Row) :
    ∀ ks : List String,
      (load_orders_loop m df ks).1.length + (load_orders_loop m df ks).2
        = ks.length := by
  intro ks
  induction ks with
  | nil => rfl
  | cons oid rest ih =>
    simp only [load_orders_loop]
    split
    · split
      · simp only [List.length_cons]
        omega
      · simp only [List.length_cons]
        omega
    · simp only [List.length_cons]
      omega

theorem load_order_m_count (m : Mappings) (df2 : List Row) :
    ∀ ks : List (Nat × Nat × String),
      (load_order_m_loop m df2 ks).1.length + (load_order_m_loop m df2 ks).2
        = ks.length := by
  intro ks
  induction ks with
  | nil => rfl
  | cons k rest ih =>
    simp only [load_order_m_loop]
    split
    · split
      · simp only [List.length_cons]
        omega
      · simp only [List.length_cons]
        omega
    · simp only [List.length_cons]
      omega

/-- C7: for the Item, Orders and OrderM loaders, under any dimension
mappings, every candidate row at the grain of the table is either
inserted or counted as skipped — inserted + skipped equals the number
of candidates (rows, order groups, month-state groups) — and a failed
lookup only increments the skip counter.  The ProductPerformance loader
however raises before its insert loop runs: on the concrete one-row
dataset it has one candidate group but aborts with an error, inserting
and counting nothing. -/
theorem fact_loader_skip_counting :
    (∀ (m : Mappings) (df : List Row),
      (load_item_fact_table m df).1.length + (load_item_fact_table m df).2
        = df.length) ∧
    (∀ (m : Mappings) (df : List Row),
      (load_orders_fact_table m df).1.length + (load_orders_fact_table m df).2
        = (orderIds df).length) ∧
    (∀ (m : Mappings) (df : List Row),
      (load_order_m_fact_table m df).2.1.length
          + (load_order_m_fact_table m df).2.2
        = (orderMKeys (addYearMonthColumns df)).length) ∧
    ((ppGroups (addYearMonthColumns [rowPP1])).length = 1 ∧
      (load_product_performance_fact_table mAll [rowPP1]).2
        = Except.error "InvalidIndexError") := by
  refine ⟨load_item_count, ?_, ?_, ?_, rfl⟩
  · intro m df
    exact load_orders_count m df (orderIds df)
  · intro m df
    exact load_order_m_count m (addYearMonthColumns df)
      (orderMKeys (addYearMonthColumns df))
  · simp [ppGroups, addYearMonthColumns, dedupFirst, dedupFirstAux,
      List.insertionSort, List.orderedInsert]

theorem map_eq_self_mem {α : Type} (f : α → α) :
    ∀ l : List α, l.map f = l → ∀ r ∈ l, f r = r := by
  intro l
  induction l with
  | nil => intro _ r hr; simp at hr
  | cons a t ih =>
    intro h r hr
    rw [List.map_cons] at h
    injection h with h1 h2
    rcases List.mem_cons.mp hr with hEq | hMem
    · subst hEq
      exact h1
    · exact ih h2 r hMem

/-- C9: the OrderM and ProductPerformance loaders return the caller
dataframe with the derived year and month columns assigned onto it, and
a dataframe holding a row without those columns is changed by the
assignment, so the cleaned dataset does not remain unchanged across
fact loading. -/
theorem order_m_and_pp_mutate_input :
    (∀ (m : Mappings) (df : List Row),
      (load_order_m_fact_table m df).1 = addYearMonthColumns df) ∧
    (∀ (m : Mappings) (df : List Row),
      (load_product_performance_fact_table m df).1 = addYearMonthColumns df) ∧
    (∀ (df : List Row) (r : Row), r ∈ df → r.yearCol = none →
      addYearMonthColumns df ≠ df) := by
  refine ⟨fun _ _ => rfl, fun _ _ => rfl, ?_⟩
  intro df r hr hnone heq
  have hfix := map_eq_self_mem setYearMonth df heq r hr
  have hyear : (setYearMonth r).yearCol = some r.orderDate.year := rfl
  rw [hfix, hnone] at hyear
  exact Option.noConfusion hyear

theorem order_m_and_pp_mutate_input_witness :
    rowPP1 ∈ [rowPP1] ∧ rowPP1.yearCol = none ∧
    addYearMonthColumns [rowPP1] ≠ [rowPP1] :=
  ⟨List.mem_singleton.mpr rfl, rfl,
   order_m_and_pp_mutate_input.2.2 [rowPP1] rowPP1
     (List.mem_singleton.mpr rfl) rfl⟩

/-- C1 at the concrete three-month example (category Tech, state CA,
profits 10, -5, 20 in chronological order): the cumulative loop of the
ProductPerformance loader computes exactly the claimed running sums
[10, 5, 25], but never attaches them to grouped_data — the write-back
of line 876 mutates an iterrows copy — and the loader then raises at
the logging line 883 before its insert loop, so nothing is inserted. -/
theorem product_performance_cumulative_profit_bug :
    cumulativeProfitValues
      (List.insertionSort ppLe (ppGroups (addYearMonthColumns dfPP)))
      = [10, 5, 25] ∧
    (load_product_performance_fact_table mAll dfPP).2
      = Except.error "InvalidIndexError" := by
  constructor
  · simp +decide [cumulativeProfitValues, cumulativeLoop, ppGroups, ppLe,
      csymLe, strLt, strLe, addYearMonthColumns, setYearMonth, csymKey,
      dedupFirst, dedupFirstAux, List.insertionSort, List.orderedInsert,
      dfPP, rowPP1, rowPP2, rowPP3, mkRow]
    norm_num
  · rfl

theorem idxIn_cons_self {κ : Type} [DecidableEq κ] (a : κ) (t : List κ) :
    idxIn (a :: t) a = some 0 := by
  simp [idxIn]

theorem idxIn_dedupFirstAux_order {κ : Type} [DecidableEq κ] :
    ∀ (t seen : List κ) (u v : κ), u ∈ t → v ∈ t → u ∉ seen → v ∉ seen →
      u ≠ v → ∀ iu iv, idxIn (dedupFirstAux seen t) u = some iu →
        idxIn (dedupFirstAux seen t) v = some iv →
        (iu < iv ↔ t.findIdx (fun b => b = u) < t.findIdx (fun b => b = v)) := by
  intro t
  induction t with
  | nil => intro seen u v hu; simp at hu
  | cons b t2 ih =>
    intro seen u v hu hv hus hvs huv iu iv hiu hiv
    by_cases hb : b ∈ seen
    · have hub : ¬ b = u := fun h => hus (h ▸ hb)
      have hvb : ¬ b = v := fun h => hvs (h ▸ hb)
      simp only [dedupFirstAux, if_pos hb] at hiu hiv
      have hu2 : u ∈ t2 := by
        rcases List.mem_cons.mp hu with h | h
        · exact absurd h.symm hub
        · exact h
      have hv2 : v ∈ t2 := by
        rcases List.mem_cons.mp hv with h | h
        · exact absurd h.symm hvb
        · exact h
      have hIH := ih seen u v hu2 hv2 hus hvs huv iu iv hiu hiv
      simp only [List.findIdx_cons, hub, hvb, decide_False, cond_false]
      omega
    · simp only [dedupFirstAux, if_neg hb] at hiu hiv
      by_cases hub : b = u
      · subst hub
        rw [idxIn_cons_self] at hiu
        injection hiu with hiu0
        have hvb : ¬ b = v := fun h => huv h
        simp only [idxIn, if_neg hvb, Option.map_eq_some'] at hiv
        obtain ⟨jv, _, hjvi⟩ := hiv
        simp only [List.findIdx_cons, hvb, decide_True, decide_False,
          cond_true, cond_false]
        omega
      · by_cases hvb : b = v
        · subst hvb
          rw [idxIn_cons_self] at hiv
          injection hiv with hiv0
          simp only [idxIn, if_neg hub, Option.map_eq_some'] at hiu
          obtain ⟨ju, _, hjui⟩ := hiu
          simp only [List.findIdx_cons, hub, decide_True, decide_False,
            cond_true, cond_false]
          omega
        · simp only [idxIn, if_neg hub, Option.map_eq_some'] at hiu
          simp only [idxIn, if_neg hvb, Option.map_eq_some'] at hiv
          obtain ⟨ju, hju, hjui⟩ := hiu
          obtain ⟨jv, hjv, hjvi⟩ := hiv
          have hu2 : u ∈ t2 := by
            rcases List.mem_cons.mp hu with h | h
            · exact absurd h.symm hub
            · exact h
          have hv2 : v ∈ t2 := by
            rcases List.mem_cons.mp hv with h | h
            · exact absurd h.symm hvb
            · exact h
          have hus2 : u ∉ b :: seen := by
            intro h
            rcases List.mem_cons.mp h with h2 | h2
            · exact hub h2.symm
            · exact hus h2
          have hvs2 : v ∉ b :: seen := by
            intro h
            rcases List.mem_cons.mp h with h2 | h2
            · exact hvb h2.symm
            · exact hvs h2
          have hIH := ih (b :: seen) u v hu2 hv2 hus2 hvs2 huv ju jv hju hjv
          simp only [List.findIdx_cons, hub, hvb, decide_False, cond_false]
          omega

theorem levelMapping_spec {κ : Type} [DecidableEq κ] (V : List κ) :
    FirstOccurrenceEnumeration V (levelMapping V) := by
  refine ⟨?_, ?_, ?_, ?_, ?_⟩
  · intro v hv
    have hvD : v ∈ dedupFirst V := (mem_dedupFirst V v).mpr hv
    obtain ⟨j, hj⟩ := Option.isSome_iff_exists.mp
      ((idxIn_isSome_iff_mem (dedupFirst V) v).mpr hvD)
    have hlt := idxIn_lt_length (dedupFirst V) v j hj
    exact ⟨j + 1, by simp [levelMapping, hj], by omega, by omega⟩
  · intro v hv
    have hvD : v ∉ dedupFirst V := fun h => hv ((mem_dedupFirst V v).mp h)
    simp [levelMapping, idxIn_eq_none_of_not_mem hvD]
  · intro u v i hu hv
    simp only [levelMapping, Option.map_eq_some'] at hu hv
    obtain ⟨ju, hju, hjui⟩ := hu
    obtain ⟨jv, hjv, hjvi⟩ := hv
    have : ju = jv := by omega
    exact idxIn_inj (dedupFirst V) u v ju hju (this ▸ hjv)
  · intro i h1 hN
    obtain ⟨v, hvD, hvi⟩ :=
      idxIn_surj (dedupFirst V) (nodup_dedupFirst V) (i - 1) (by omega)
    refine ⟨v, (mem_dedupFirst V v).mp hvD, ?_⟩
    simp only [levelMapping, hvi, Option.map_some']
    congr 1
    omega
  · intro u v iu iv huv hfu hfv
    simp only [levelMapping, Option.map_eq_some'] at hfu hfv
    obtain ⟨ju, hju, hjui⟩ := hfu
    obtain ⟨jv, hjv, hjvi⟩ := hfv
    have hu : u ∈ V := by
      have := (idxIn_isSome_iff_mem (dedupFirst V) u).mp (by simp [hju])
      exact (mem_dedupFirst V u).mp this
    have hv : v ∈ V := by
      have := (idxIn_isSome_iff_mem (dedupFirst V) v).mp (by simp [hjv])
      exact (mem_dedupFirst V v).mp this
    have := idxIn_dedupFirstAux_order V [] u v hu hv (by simp) (by simp)
      huv ju jv hju hjv
    omega

/-- C6: each of the three pre-database dimension-key mappings built by
create_level_mappings (sub-category, country, (city, state)) is a
bijection from the distinct observed values onto the ids 1..N assigned
in first-occurrence order, and rebuilding from the same input gives the
same mappings. -/
theorem create_level_mappings_bijective :
    (∀ df : List Row,
      FirstOccurrenceEnumeration (df.map (·.subCategory))
        (create_level_mappings df).1 ∧
      FirstOccurrenceEnumeration (df.map (·.country))
        (create_level_mappings df).2.1 ∧
      FirstOccurrenceEnumeration (df.map (fun r => (r.city, r.state)))
        (create_level_mappings df).2.2) ∧
    (∀ df1 df2 : List Row, df1 = df2 →
      create_level_mappings df1 = create_level_mappings df2) :=
  ⟨fun _ => ⟨levelMapping_spec _, levelMapping_spec _, levelMapping_spec _⟩,
   fun _ _ h => h ▸ rfl⟩

theorem create_level_mappings_bijective_witness :
    (∃ i, (create_level_mappings [rowPP1, rowDupA]).1 "Chairs" = some i ∧
      1 ≤ i ∧
      i ≤ (dedupFirst ([rowPP1, rowDupA].map (·.subCategory))).length) ∧
    (create_level_mappings [rowPP1, rowDupA]).2.1 "France" = none := by
  constructor
  · exact ((create_level_mappings_bijective.1 [rowPP1, rowDupA]).1).1
      "Chairs" (by decide)
  · exact ((create_level_mappings_bijective.1 [rowPP1, rowDupA]).2.1).2.1
      "France" (by decide)

theorem mem_enumFrom_of_mem {α : Type} (a : α) :
    ∀ (l : List α) (n : Nat), a ∈ l → ∃ i, (i, a) ∈ l.enumFrom n := by
  intro l
  induction l with
  | nil => intro n h; simp at h
  | cons b t ih =>
    intro n h
    rcases List.mem_cons.mp h with hEq | hMem
    · exact ⟨n, by simp [List.enumFrom, hEq]⟩
    · obtain ⟨i, hi⟩ := ih (n + 1) hMem
      exact ⟨i, by simp [List.enumFrom]; right; exact hi⟩

theorem snd_mem_of_mem_enumFrom {α : Type} :
    ∀ (l : List α) (n : Nat) (p : Nat × α), p ∈ l.enumFrom n → p.2 ∈ l := by
  intro l
  induction l with
  | nil => intro n p h; simp at h
  | cons b t ih =>
    intro n p h
    rw [List.enumFrom] at h
    rcases List.mem_cons.mp h with hEq | hMem
    · subst hEq
      exact List.mem_cons_self b t
    · exact List.mem_cons_of_mem b (ih (n + 1) p hMem)

theorem mem_calendarMonthTable_of_mem_month_data (df : List Row)
    {mr : MonthRowPre} (h : mr ∈ month_data df) :
    ∃ id, (id, mr) ∈ calendarMonthTable df := by
  obtain ⟨i, hi⟩ := mem_enumFrom_of_mem mr (month_data df) 0 h
  exact ⟨i + 1, List.mem_map.mpr ⟨(i, mr), hi, rfl⟩⟩

theorem snd_mem_month_data_of_mem_table (df : List Row)
    {p : Nat × MonthRowPre} (h : p ∈ calendarMonthTable df) :
    p.2 ∈ month_data df := by
  obtain ⟨q, hq, hqe⟩ := List.mem_map.mp h
  have : q.2 = p.2 := by rw [← hqe]
  rw [← this]
  exact snd_mem_of_mem_enumFrom (month_data df) 0 q hq

theorem mem_calendarYears_iff (df : List Row) (y : Nat) :
    y ∈ calendarYears df ↔ y ∈ (allDates df).map (·.year) := by
  rw [calendarYears, List.mem_insertionSort, mem_dedupFirst]

theorem year_mapping_getD_inj (df : List Row) {y1 y2 : Nat}
    (h1 : y1 ∈ calendarYears df) (h2 : y2 ∈ calendarYears df)
    (h : (year_mapping df y1).getD 0 = (year_mapping df y2).getD 0) :
    y1 = y2 := by
  obtain ⟨j1, hj1⟩ := Option.isSome_iff_exists.mp
    ((idxIn_isSome_iff_mem (calendarYears df) y1).mpr h1)
  obtain ⟨j2, hj2⟩ := Option.isSome_iff_exists.mp
    ((idxIn_isSome_iff_mem (calendarYears df) y2).mpr h2)
  rw [year_mapping, hj1, year_mapping, hj2] at h
  simp only [Option.map_some', Option.getD_some] at h
  have : j1 = j2 := by omega
  exact idxIn_inj (calendarYears df) y1 y2 j1 hj1 (this ▸ hj2)

theorem month_data_shape (df : List Row) {mr : MonthRowPre}
    (h : mr ∈ month_data df) :
    mr.year_id = (year_mapping df mr.year_number).getD 0 ∧
    mr.month_name = monthName mr.month_number ∧
    ∃ d ∈ allDates df, d.year = mr.year_number ∧ d.month = mr.month_number := by
  rw [month_data, mem_dedupFirst] at h
  obtain ⟨c, hc, hceq⟩ := List.mem_map.mp h
  rw [calendar_df] at hc
  obtain ⟨d, hd, hdeq⟩ := List.mem_map.mp hc
  subst hdeq
  subst hceq
  exact ⟨rfl, rfl, d, hd, rfl, rfl⟩

theorem mem_month_data_of_date (df : List Row) {d : Date}
    (hd : d ∈ allDates df) :
    monthRowOfCal (calRowOf df d) ∈ month_data df := by
  rw [month_data, mem_dedupFirst]
  exact List.mem_map.mpr ⟨calRowOf df d,
    List.mem_map.mpr ⟨d, hd, rfl⟩, rfl⟩

theorem month_mapping_isSome (df : List Row) {c : CalRowPre}
    (hc : c ∈ calendar_df df) :
    (month_mapping df (c.year_id, c.month_number)).isSome := by
  obtain ⟨d, hd, hdeq⟩ := List.mem_map.mp hc
  have hmem : monthRowOfCal c ∈ month_data df := by
    rw [← hdeq]
    exact mem_month_data_of_date df hd
  obtain ⟨id, hid⟩ := mem_calendarMonthTable_of_mem_month_data df hmem
  simp only [month_mapping, Option.isSome_map', List.find?_isSome]
  exact ⟨(id, monthRowOfCal c), hid, by simp [monthRowOfCal]⟩

theorem mapM_calRows (df : List Row) :
    ∀ l : List CalRowPre,
      (∀ c ∈ l, (month_mapping df (c.year_id, c.month_number)).isSome) →
      l.mapM (fun c => (month_mapping df (c.year_id, c.month_number)).map
        (fun mid => (⟨c.full_date, c.year_id, c.year_number, mid,
          c.month_number, c.month_name, c.day_id, c.day_number⟩
            : CalendarRowIns)))
      = some (l.map (fun c =>
          ⟨c.full_date, c.year_id, c.year_number,
           (month_mapping df (c.year_id, c.month_number)).getD 0,
           c.month_number, c.month_name, c.day_id, c.day_number⟩)) := by
  intro l
  induction l with
  | nil => intro _; rfl
  | cons c t ih =>
    intro h
    obtain ⟨mid, hmid⟩ := Option.isSome_iff_exists.mp
      (h c (List.mem_cons_self c t))
    rw [List.mapM_cons, hmid,
      ih (fun c2 hc2 => h c2 (List.mem_cons_of_mem c hc2))]
    simp [hmid]

/-- The Calendar rows actually produced: one per calendar_df entry,
with the month id resolved through month_mapping. -/
theorem calendarTable_eq (df : List Row) :
    calendarTable df = some ((calendar_df df).map (fun c =>
      ⟨c.full_date, c.year_id, c.year_number,
       (month_mapping df (c.year_id, c.month_number)).getD 0,
       c.month_number, c.month_name, c.day_id, c.day_number⟩)) := by
  rw [calendarTable]
  exact mapM_calRows df (calendar_df df)
    (fun c hc => month_mapping_isSome df hc)

/-- C8: the Calendar loading step derives the distinct dates as the
union of order and ship dates, assigns year ids 1..K over the sorted
distinct years, inserts one CalendarMonth row per distinct
(year, month) pair and one Calendar row per distinct date, each
Calendar row referencing the generated id, re-read from the
CalendarMonth table, of the row with its (year, month). -/
theorem load_calendar_dimension_spec (df : List Row) :
    ∃ cal, calendarTable df = some cal ∧
    load_calendar_dimension df
      = some (calendarMonthTable df, cal, year_mapping df) ∧
    cal.map (·.full_date) = allDates df ∧
    (allDates df).Nodup ∧
    (∀ d, d ∈ allDates df
      ↔ d ∈ df.map (·.orderDate) ++ df.map (·.shipDate)) ∧
    (calendarYears df).Sorted (· ≤ ·) ∧
    (calendarYears df).Nodup ∧
    (∀ y, y ∈ calendarYears df ↔ y ∈ (allDates df).map (·.year)) ∧
    (∀ (i : Nat) (h : i < (calendarYears df).length),
      year_mapping df ((calendarYears df).get ⟨i, h⟩) = some (i + 1)) ∧
    ((month_data df).map (fun mr => (mr.year_number, mr.month_number))).Nodup ∧
    (∀ ym : Nat × Nat,
      ym ∈ (month_data df).map (fun mr => (mr.year_number, mr.month_number))
        ↔ ∃ d ∈ allDates df, d.year = ym.1 ∧ d.month = ym.2) ∧
    (∀ c ∈ cal, ∃ p ∈ calendarMonthTable df,
      p.1 = c.month_id ∧ p.2.year_number = c.year_number ∧
      p.2.month_number = c.month_number) := by
  refine ⟨_, calendarTable_eq df, ?_, ?_, ?_, ?_, ?_, ?_, ?_, ?_, ?_, ?_, ?_⟩
  · rw [load_calendar_dimension, calendarTable_eq df]
    rfl
  · rw [calendar_df, List.map_map, List.map_map]
    exact List.map_id (allDates df)
  · exact (List.perm_insertionSort dateLe _).symm.nodup
      (nodup_dedupFirst _)
  · intro d
    rw [allDates, List.mem_insertionSort, mem_dedupFirst]
  · exact List.sorted_insertionSort (· ≤ ·) _
  · exact (List.perm_insertionSort (· ≤ ·) _).symm.nodup
      (nodup_dedupFirst _)
  · exact mem_calendarYears_iff df
  · intro i h
    rw [year_mapping]
    rw [show (calendarYears df).get ⟨i, h⟩ = (calendarYears df)[i] from rfl]
    rw [idxIn_get (calendarYears df)
      ((List.perm_insertionSort (· ≤ ·) _).symm.nodup (nodup_dedupFirst _)) i h]
    rfl
  · refine List.Nodup.map_on ?_ (nodup_dedupFirst _)
    intro mr1 h1 mr2 h2 heq
    obtain ⟨hy1, hn1, _⟩ := month_data_shape df h1
    obtain ⟨hy2, hn2, _⟩ := month_data_shape df h2
    have hyn : mr1.year_number = mr2.year_number := congrArg Prod.fst heq
    have hmn : mr1.month_number = mr2.month_number := congrArg Prod.snd heq
    cases mr1
    cases mr2
    simp_all
  · intro ym
    constructor
    · intro h
      obtain ⟨mr, hmr, hmre⟩ := List.mem_map.mp h
      obtain ⟨_, _, d, hd, hdy, hdm⟩ := month_data_shape df hmr
      exact ⟨d, hd, by rw [← hmre]; exact ⟨hdy, hdm⟩⟩
    · rintro ⟨d, hd, hdy, hdm⟩
      refine List.mem_map.mpr ⟨monthRowOfCal (calRowOf df d),
        mem_month_data_of_date df hd, ?_⟩
      simp [monthRowOfCal, calRowOf, hdy, hdm]
  · intro c hc
    obtain ⟨cpre, hcpre, hceq⟩ := List.mem_map.mp hc
    obtain ⟨mid, hmid⟩ := Option.isSome_iff_exists.mp
      (month_mapping_isSome df hcpre)
    rw [month_mapping] at hmid
    obtain ⟨p, hpfind, hpid⟩ := Option.map_eq_some'.mp hmid
    have hpmem : p ∈ calendarMonthTable df := List.mem_of_find?_eq_some hpfind
    have hppred := List.find?_some hpfind
    simp only [decide_eq_true_eq] at hppred
    refine ⟨p, hpmem, ?_, ?_, ?_⟩
    · rw [← hceq]
      simp only
      rw [month_mapping, hpfind]
      simp [hpid]
    · obtain ⟨d, hd, hdeq⟩ := List.mem_map.mp hcpre
      have hp2 : p.2 ∈ month_data df := snd_mem_month_data_of_mem_table df hpmem
      obtain ⟨hpy, _, dp, hdp, hdpy, _⟩ := month_data_shape df hp2
      have hyobs1 : p.2.year_number ∈ calendarYears df := by
        rw [mem_calendarYears_iff]
        exact List.mem_map.mpr ⟨dp, hdp, hdpy⟩
      have hyobs2 : cpre.year_number ∈ calendarYears df := by
        rw [mem_calendarYears_iff]
        refine List.mem_map.mpr ⟨d, hd, ?_⟩
        rw [← hdeq]
        rfl
      have hyeq : p.2.year_id = cpre.year_id := hppred.1
      have hcy : cpre.year_id = (year_mapping df cpre.year_number).getD 0 := by
        rw [← hdeq]
        rfl
      have : p.2.year_number = cpre.year_number := by
        refine year_mapping_getD_inj df hyobs1 hyobs2 ?_
        rw [← hpy, ← hcy, hyeq]
      rw [this, ← hceq]
    · rw [← hceq]
      exact hppred.2

set_option maxRecDepth 4000 in
theorem load_calendar_dimension_spec_witness :
    year_mapping [rowPP1] 2020 = some 1 ∧
    (⟨2020, 1, 5⟩ : Date) ∈ allDates [rowPP1] := by
  obtain ⟨cal, hcal, hrest⟩ := load_calendar_dimension_spec [rowPP1]
  constructor
  · have hy := hrest.2.2.2.2.2.2.2.1 0 (by decide)
    have hg : (calendarYears [rowPP1]).get ⟨0, by decide⟩ = 2020 := by decide
    rw [hg] at hy
    exact hy
  · exact (hrest.2.2.2.1 ⟨2020, 1, 5⟩).mpr (by decide)

end SuperStore

